import Mathlib

/-!
Verification development for the calendly_combine repository.

The repository has two layers:

* a Next.js frontend (under `src/frontend`) whose request path is implemented
  in `components/wizard/calendar-form.tsx` (the `FormSchema` zod validator and
  `isValidCalendarUrl`), the `findAvailability` server action with its
  `FindAvailabilitySchema`, and `lib/api/clerk.ts` (`getGoogleOauthToken`,
  `saveData`, `loadData`);
* a Python backend hosting the Availability Overlap Engine (spec sections
  3 to 7).  The backend module sources (`core/models.py`,
  `core/overlap_engine.py`, the adapters and the API layer) are not part of
  the source snapshot, so the engine components (Normalizer, Fetcher, Overlap
  Processor, Overlap Service) are modelled from the spec; each such
  definition carries a doc comment saying so.

Time instants are modelled as `Int` (minutes); JavaScript runtime
capabilities (the WHATWG URL parser, JSON serialization, localStorage, the
Clerk client) are modelled as explicit function parameters or environment
records, with `Option` results or explicit `thrown` constructors standing
for exceptions.
-/

namespace CalendlyCombine

/-! ### Time slot model (spec section 3) -/

/-- A half-open UTC time interval.  The spec field `end` is a Lean keyword,
so it is called `stop` here.  Invariant (enforced by the Normalizer):
`start < stop`. -/
structure Slot where
  start : Int
  stop : Int
deriving DecidableEq, Repr

/-- Ordering of slots by their start instant, used by the Normalizer sort. -/
def startLE (a b : Slot) : Prop := a.start ≤ b.start

instance : DecidableRel startLE := fun a b => inferInstanceAs (Decidable (a.start ≤ b.start))

instance : IsTotal Slot startLE := ⟨fun a b => Int.le_total a.start b.start⟩

instance : IsTrans Slot startLE := ⟨fun _ _ _ h1 h2 => le_trans h1 h2⟩

/-- Modelled from the spec: `AvailabilitySchedule` (spec section 3), the
per-source collection of slots; the backend `core/models.py` defining it is
not in the source snapshot.  The IANA timezone is modelled by its fixed UTC
offset in minutes (`tzOffset`); a normalized schedule is in UTC, i.e. has
`tzOffset = 0`. -/
structure AvailabilitySchedule where
  sourceId : String
  tzOffset : Int
  slots : List Slot
deriving DecidableEq, Repr

/-- Modelled from the spec: the error raised by the Normalizer on a raw
interval with start at or after its end after conversion (spec sections
4.1 and 7). -/
inductive InvalidSlotError
  | invalidSlot
deriving DecidableEq, Repr

/-! ### Schedule Normalizer (spec section 4.1), modelled from the spec -/

/-- Modelled from the spec: the single left-to-right merge sweep of the
Normalizer (spec section 4.1), written with the current slot as an explicit
accumulator.  Any next slot with `next.start ≤ current.stop` (overlapping or
touching) is merged into `{current.start, max current.stop next.stop}`;
otherwise the current slot is emitted and the sweep restarts at the next
slot. -/
def mergeInto (cur : Slot) : List Slot → List Slot
  | [] => [cur]
  | b :: rest =>
    if b.start ≤ cur.stop then mergeInto ⟨cur.start, max cur.stop b.stop⟩ rest
    else cur :: mergeInto b rest

/-- Modelled from the spec: the merge pass over a sorted slot list. -/
def mergeSweep : List Slot → List Slot
  | [] => []
  | a :: rest => mergeInto a rest

/-- Modelled from the spec: the Schedule Normalizer (spec section 4.1);
`core/overlap_engine.py` implementing it is not in the source snapshot.
Converts every raw interval to UTC by subtracting the per-source timezone
offset, rejects with `InvalidSlotError` any interval whose start is not
before its end after conversion, sorts by `start`, then merges overlapping
or touching neighbours in one sweep.  The output schedule is in UTC
(`tzOffset = 0`). -/
def normalize (sourceId : String) (tzOffset : Int) (raw : List Slot) :
    Except InvalidSlotError AvailabilitySchedule :=
  let utc := raw.map fun s => Slot.mk (s.start - tzOffset) (s.stop - tzOffset)
  if utc.all fun s => s.start < s.stop then
    .ok ⟨sourceId, 0, mergeSweep (List.insertionSort startLE utc)⟩
  else .error .invalidSlot

/-! ### Overlap Processor (spec section 4.3), modelled from the spec -/

/-- Modelled from the spec: the programming-error condition of the Overlap
Processor (spec section 4.3): it must be given at least one schedule. -/
inductive PreconditionViolation
  | zeroSchedules
deriving DecidableEq, Repr

/-- Splits every cursor list into its current head slot and remaining slots;
`none` when some cursor is exhausted. -/
def headsOf : List (List Slot) → Option (List (Slot × List Slot))
  | [] => some []
  | [] :: _ => none
  | (s :: t) :: rest => (headsOf rest).map fun r => (s, t) :: r

/-- The candidate start: the maximum of the current slot starts. -/
def maxStart (p : Slot × List Slot) : List (Slot × List Slot) → Int
  | [] => p.1.start
  | q :: ps => max p.1.start (maxStart q ps)

/-- The candidate end: the minimum of the current slot ends. -/
def minStop (p : Slot × List Slot) : List (Slot × List Slot) → Int
  | [] => p.1.stop
  | q :: ps => min p.1.stop (minStop q ps)

/-- Total number of slots still under the cursors; the termination measure
of the sweep (the spec argues the loop is linear in this quantity). -/
def totalLen (ls : List (List Slot)) : Nat := (ls.map List.length).sum

/-- A successful `headsOf` decomposes every cursor into head and tail. -/
theorem headsOf_eq_some : ∀ (ls : List (List Slot)) (qs : List (Slot × List Slot)),
    headsOf ls = some qs → ls = qs.map fun q => q.1 :: q.2
  | [], qs, h => by
    rw [headsOf] at h
    cases h
    rfl
  | [] :: rest, qs, h => by
    rw [headsOf] at h
    cases h
  | (s :: t) :: rest, qs, h => by
    rw [headsOf, Option.map_eq_some'] at h
    obtain ⟨qs', hq, rfl⟩ := h
    rw [List.map_cons]
    exact congrArg (List.cons (s :: t)) (headsOf_eq_some rest qs' hq)

/-- The candidate end is the stop of one of the cursors. -/
theorem minStop_attained : ∀ (ps : List (Slot × List Slot)) (p : Slot × List Slot),
    ∃ q, (q = p ∨ q ∈ ps) ∧ q.1.stop = minStop p ps
  | [], p => ⟨p, Or.inl rfl, rfl⟩
  | q0 :: ps, p => by
    rw [minStop]
    rcases le_total p.1.stop (minStop q0 ps) with h | h
    · exact ⟨p, Or.inl rfl, (min_eq_left h).symm⟩
    · obtain ⟨q, hq, he⟩ := minStop_attained ps q0
      refine ⟨q, Or.inr ?_, ?_⟩
      · rcases hq with rfl | hmem
        · exact List.mem_cons_self _ _
        · exact List.mem_cons_of_mem _ hmem
      · rw [he]
        exact (min_eq_right h).symm

/-- Advancing cursors never increases the number of remaining slots. -/
theorem advance_totalLen_le : ∀ (qs : List (Slot × List Slot)) (ce : Int),
    totalLen (qs.map fun q => if q.1.stop = ce then q.2 else q.1 :: q.2) ≤
      totalLen (qs.map fun q => q.1 :: q.2)
  | [], _ => le_refl _
  | q :: qs, ce => by
    have ih := advance_totalLen_le qs ce
    simp only [totalLen, List.map_cons, List.map_map, List.sum_cons] at ih ⊢
    by_cases h : q.1.stop = ce
    · rw [if_pos h]
      simp only [List.length_cons]
      omega
    · rw [if_neg h]
      omega

/-- Advancing cursors strictly decreases the number of remaining slots when
some cursor's current slot ends at the candidate end. -/
theorem advance_totalLen_lt : ∀ (qs : List (Slot × List Slot)) (ce : Int),
    (∃ q ∈ qs, q.1.stop = ce) →
    totalLen (qs.map fun q => if q.1.stop = ce then q.2 else q.1 :: q.2) <
      totalLen (qs.map fun q => q.1 :: q.2)
  | [], ce, h => by simp at h
  | q :: qs, ce, h => by
    by_cases hq : q.1.stop = ce
    · have hle := advance_totalLen_le qs ce
      simp only [totalLen, List.map_cons, List.map_map, List.sum_cons] at hle ⊢
      rw [if_pos hq]
      simp only [List.length_cons]
      omega
    · obtain ⟨q', hq', he⟩ := h
      rcases List.mem_cons.mp hq' with rfl | hmem
      · exact absurd he hq
      · have ih := advance_totalLen_lt qs ce ⟨q', hmem, he⟩
        simp only [totalLen, List.map_cons, List.map_map, List.sum_cons] at ih ⊢
        rw [if_neg hq]
        omega

/-- Modelled from the spec: the multi-pointer sweep of the Overlap Processor
(spec section 4.3); `core/overlap_engine.py` implementing it is not in the
source snapshot.  One cursor per schedule; at each step the candidate slot is
`(max of current starts, min of current ends)`, emitted when non-degenerate;
every cursor whose current slot ends at the candidate end advances (tied
cursors advance together); the loop stops when any cursor is exhausted. -/
def sweep (ls : List (List Slot)) : List Slot :=
  match h : headsOf ls with
  | none => []
  | some [] => []
  | some (p :: ps) =>
    let ce := minStop p ps
    let advanced := (p :: ps).map fun q => if q.1.stop = ce then q.2 else q.1 :: q.2
    if maxStart p ps < ce then ⟨maxStart p ps, ce⟩ :: sweep advanced
    else sweep advanced
termination_by totalLen ls
decreasing_by
  all_goals
  · rw [headsOf_eq_some ls (p :: ps) h]
    obtain ⟨q, hq, he⟩ := minStop_attained ps p
    have hmem : q ∈ p :: ps := by
      rcases hq with rfl | hmem
      · exact List.mem_cons_self _ _
      · exact List.mem_cons_of_mem _ hmem
    exact advance_totalLen_lt (p :: ps) (minStop p ps) ⟨q, hmem, he⟩

/-- Modelled from the spec: the Overlap Processor contract
`intersect(schedules, minDuration?)` (spec section 4.3).  Zero schedules is
a `PreconditionViolation`; otherwise the sweep computes the common slots and
the optional minimum-duration filter drops (after intersection, without
merging or extending) every slot shorter than `minDuration`. -/
def intersect (schedules : List AvailabilitySchedule) (minDuration : Option Int) :
    Except PreconditionViolation (List Slot) :=
  match schedules with
  | [] => .error .zeroSchedules
  | s0 :: rest =>
    let common := sweep ((s0 :: rest).map fun s => s.slots)
    match minDuration with
    | none => .ok common
    | some d => .ok (common.filter fun s => d ≤ s.stop - s.start)

/-! ### Source Fetcher (spec sections 4.2 and 5), modelled from the spec -/

/-- Modelled from the spec: the classified per-source failure reasons
(spec sections 4.2 and 7). -/
inductive FailureReason
  | timeout
  | providerError
  | invalidLink
deriving DecidableEq, Repr

/-- Modelled from the spec: a per-source failure diagnostic (spec section 3). -/
structure FetchFailure where
  sourceId : String
  reason : FailureReason
deriving DecidableEq, Repr

/-- Modelled from the spec: the per-source result of the Fetcher (spec
section 3): a normalized schedule or a failure. -/
inductive FetchOutcome
  | ok (schedule : AvailabilitySchedule)
  | failed (failure : FetchFailure)
deriving DecidableEq, Repr

/-- Modelled from the spec: one requested calendar link (spec section 4.2). -/
structure CalendarLink where
  sourceId : String
  providerKind : String
  locator : String
deriving DecidableEq, Repr

/-- Modelled from the spec: the result of one call to the injected
`AvailabilityProvider` capability (spec section 6), already classified by
the Fetcher: raw slots in source-local time with the source timezone, or a
classified failure (timeout, provider error, invalid link). -/
inductive ProviderResult
  | ok (tzOffset : Int) (slots : List Slot)
  | error (reason : FailureReason)
deriving DecidableEq, Repr

/-- Modelled from the spec: the body of one concurrent Fetcher task (spec
sections 4.2 and 7): call the provider on the locator, normalize a raw
success, and convert an `InvalidSlotError` from normalization into a
`FetchFailure` with reason `invalidLink`. -/
def runTask (provider : String → ProviderResult) (link : CalendarLink) : FetchOutcome :=
  match provider link.locator with
  | .error r => .failed ⟨link.sourceId, r⟩
  | .ok tz raw =>
    match normalize link.sourceId tz raw with
    | .ok sched => .ok sched
    | .error _ => .failed ⟨link.sourceId, .invalidLink⟩

/-- Modelled from the spec: the fan-out phase of the Fetcher (spec
section 5).  Every task owns one write-once cell addressed by its input
index; completing the task for index `i` writes the outcome for `links[i]`
into cell `i`.  Indices out of range complete without writing. -/
def writeCell (provider : String → ProviderResult) (links : List CalendarLink)
    (cells : Nat → Option FetchOutcome) (i : Nat) : Nat → Option FetchOutcome :=
  match links[i]? with
  | some link => fun j => if j = i then some (runTask provider link) else cells j
  | none => cells

/-- Modelled from the spec: the cells after all tasks completed, `order`
being the order in which the concurrent tasks happened to complete. -/
def runTasks (provider : String → ProviderResult) (links : List CalendarLink)
    (order : List Nat) : Nat → Option FetchOutcome :=
  order.foldl (writeCell provider links) fun _ => none

/-- Modelled from the spec: the Fetcher contract `fetch(links) -> sequence
of FetchOutcome` (spec section 4.2); the join phase collects the per-task
cells in input-index order, independent of the completion order. -/
def fetch (provider : String → ProviderResult) (links : List CalendarLink)
    (order : List Nat) : List FetchOutcome :=
  (List.range links.length).filterMap (runTasks provider links order)

/-! ### Overlap Service (spec section 4.4), modelled from the spec -/

/-- Modelled from the spec: request-level failures of the Overlap Service
(spec sections 4.4 and 7): fewer than 2 usable schedules (carrying the
partial failure list), or an internal invariant violation. -/
inductive OverlapError
  | insufficientSources (failures : List FetchFailure)
  | precondition (p : PreconditionViolation)
deriving DecidableEq, Repr

/-- Modelled from the spec: `OverlapResult` (spec section 3). -/
structure OverlapResult where
  slots : List Slot
  failures : List FetchFailure
deriving DecidableEq, Repr

/-- The successfully fetched schedules, in outcome order. -/
def successes (outcomes : List FetchOutcome) : List AvailabilitySchedule :=
  outcomes.filterMap fun o =>
    match o with
    | .ok s => some s
    | .failed _ => none

/-- The per-source failures, in outcome order. -/
def failuresOf (outcomes : List FetchOutcome) : List FetchFailure :=
  outcomes.filterMap fun o =>
    match o with
    | .ok _ => none
    | .failed f => some f

/-- Modelled from the spec: the Overlap Service contract
`computeOverlap(links, minDuration?) -> OverlapResult` (spec section 4.4);
the backend API layer implementing it is not in the source snapshot.
Fetches all links, partitions the outcomes, fails with
`InsufficientSourcesError` carrying the partial failure list when fewer
than 2 sources succeeded, and otherwise intersects the successful schedules
and returns the common slots together with the failure list. -/
def computeOverlap (provider : String → ProviderResult) (links : List CalendarLink)
    (minDuration : Option Int) (order : List Nat) : Except OverlapError OverlapResult :=
  let outcomes := fetch provider links order
  let succ := successes outcomes
  let fails := failuresOf outcomes
  if succ.length < 2 then .error (.insufficientSources fails)
  else
    match intersect succ minDuration with
    | .ok slots => .ok ⟨slots, fails⟩
    | .error p => .error (.precondition p)

/-! ### Frontend: URL validation and the wizard form schema
(`components/wizard/calendar-form.tsx`) -/

/-- The fields of a WHATWG-parsed URL that `calendar-form.tsx` inspects. -/
structure ParsedURL where
  hostname : String
deriving DecidableEq, Repr

/-- The hostname allow-list of `isValidCalendarUrl` in `calendar-form.tsx`. -/
def validCalendarHosts : List String :=
  ["calendly.com", "www.calendly.com", "calendar.google.com"]

/-- `isValidCalendarUrl` from `calendar-form.tsx`: parse the candidate with
the runtime URL parser (`new URL`, modelled as the `parseURL` capability,
with `none` standing for the thrown TypeError) and check the hostname
against the allow-list; a parse failure is caught and yields `false`. -/
def isValidCalendarUrl (parseURL : String → Option ParsedURL) (url : String) : Bool :=
  match parseURL url with
  | some u => validCalendarHosts.contains u.hostname
  | none => false

/-- One entry of the `links` field array of the calendar form
(`LinkSchema` wraps the string in `{ value }`). -/
structure LinkEntry where
  value : String
deriving DecidableEq, Repr

/-- The data validated by `FormSchema` in `calendar-form.tsx`: the link
array and the (coerced) numeric duration. -/
structure FormData where
  links : List LinkEntry
  duration : Int
deriving DecidableEq, Repr

/-- The allowed duration values of `FormSchema` in `calendar-form.tsx`. -/
def allowedDurations : List Int := [30, 60, 90, 120, 150]

/-- The `durationOptions` list of `calendar-form.tsx`: the values and labels
offered by the duration dropdown. -/
def durationOptions : List (Int × String) :=
  [(15, "15 Minutes"), (30, "30 Minutes"), (45, "45 Minutes"), (60, "1 Hour"),
   (75, "1 Hour 15 Minutes"), (90, "1 Hour 30 Minutes"), (105, "1 Hour 45 Minutes"),
   (120, "2 Hours"), (135, "2 Hours 15 Minutes"), (150, "2 Hours 30 Minutes")]

/-- The issues one link value produces under `LinkSchema`: the `.url()`
check (modelled by the URL parser succeeding), then the
`isValidCalendarUrl` refinement with its message. -/
def linkIssues (parseURL : String → Option ParsedURL) (l : LinkEntry) : List String :=
  match parseURL l.value with
  | none => ["Please enter a valid URL."]
  | some u =>
    if validCalendarHosts.contains u.hostname then []
    else ["URL must be from calendly.com or calendar.google.com."]

/-- The issue messages collected by `FormSchema.safeParse` in
`calendar-form.tsx`: the `.min(2)` check on the links array, the per-link
`LinkSchema` issues, and the allowed-duration refinement.  Validation
succeeds exactly when this list is empty. -/
def formSchemaIssues (parseURL : String → Option ParsedURL) (data : FormData) :
    List String :=
  (if data.links.length < 2 then ["Please provide at least two calendar links."] else [])
    ++ (data.links.map (linkIssues parseURL)).flatten
    ++ (if allowedDurations.contains data.duration then []
        else ["Please select a valid duration."])

/-! ### Frontend: the `findAvailability` server action -/

/-- The data validated by `FindAvailabilitySchema` in the server action:
the link array and the `duration` field, which may be absent (`none` models
an omitted field). -/
structure FindRequest where
  links : List LinkEntry
  duration : Option Int
deriving DecidableEq, Repr

/-- `FindAvailabilitySchema.safeParse` success from the `findAvailability`
server action: `links` is an array of `{ value: url }` (the `.url()` check
modelled by the `isUrl` capability) with at least 2 entries, and `duration`
is a required positive integer — `z.number().int().positive()` fails on a
missing field with a required-field issue. -/
def findAvailabilityValidates (isUrl : String → Bool) (req : FindRequest) : Bool :=
  decide (2 ≤ req.links.length) && req.links.all (fun l => isUrl l.value) &&
    match req.duration with
    | none => false
    | some d => decide (0 < d)

/-- The `ActionResult` shape returned by the `findAvailability` server
action. -/
structure ActionResult where
  success : Bool
  message : Option String
  error : Option String
deriving DecidableEq, Repr

/-- The `findAvailability` server action: validate the incoming form data
with `FindAvailabilitySchema`; on validation failure return the
`success: false` result with its error message; otherwise the current
implementation returns the placeholder success response. -/
def findAvailability (isUrl : String → Bool) (formData : FindRequest) : ActionResult :=
  if findAvailabilityValidates isUrl formData then
    ⟨true, some "Availability check initiated successfully!", none⟩
  else ⟨false, none, some "Invalid form data provided."⟩

/-! ### Frontend: Clerk token retrieval (`lib/api/clerk.ts`) -/

/-- The outcome of awaiting a JavaScript promise: a value, or a thrown
exception (caught by the surrounding try block). -/
inductive JSResult (α : Type)
  | value (a : α)
  | thrown
deriving DecidableEq, Repr

/-- The external Clerk calls made by `getGoogleOauthToken`: `auth()`
(yielding a nullable `userId`), `clerkClient()`, and
`getUserOauthAccessToken` (yielding the `data` array, each entry with a
possibly-absent `token` string — `none` models an undefined token field). -/
structure ClerkEnv where
  authResult : JSResult (Option String)
  clerkClientResult : JSResult Unit
  tokenResult : JSResult (List (Option String))

/-- The result shape of `getGoogleOauthToken`. -/
structure TokenResult where
  success : Bool
  token : Option String
  error : Option String
deriving DecidableEq, Repr

/-- `getGoogleOauthToken` from `lib/api/clerk.ts`: every Clerk call is
awaited inside one try block whose catch returns the generic failure value;
a missing user id, an empty token array, and a falsy token (absent or the
empty string) each return their dedicated `success: false` value. -/
def getGoogleOauthToken (env : ClerkEnv) : TokenResult :=
  match env.authResult with
  | .thrown => ⟨false, none, some "Failed to retrieve Google OAuth token."⟩
  | .value none => ⟨false, none, some "User not authenticated."⟩
  | .value (some _) =>
    match env.clerkClientResult with
    | .thrown => ⟨false, none, some "Failed to retrieve Google OAuth token."⟩
    | .value _ =>
      match env.tokenResult with
      | .thrown => ⟨false, none, some "Failed to retrieve Google OAuth token."⟩
      | .value [] => ⟨false, none, some "Google OAuth token not found for this user."⟩
      | .value (t :: _) =>
        match t with
        | none => ⟨false, none, some "Empty Google OAuth token received."⟩
        | some s =>
          if s = "" then ⟨false, none, some "Empty Google OAuth token received."⟩
          else ⟨true, some s, none⟩

/-! ### Frontend: localStorage persistence helpers (`lib/api/clerk.ts`) -/

/-- The runtime environment of the storage helpers: whether `window` exists,
the current localStorage contents, and the JSON capabilities used on values
of type `α` (`parseFn` returning `none` models `JSON.parse` throwing). -/
structure StorageEnv (α : Type) where
  isBrowser : Bool
  store : String → Option String
  stringifyFn : α → String
  parseFn : String → Option α

/-- `saveData` from the storage helpers: outside a browser it does nothing;
otherwise it serializes the value with `JSON.stringify` and stores it under
`key`. -/
def saveData {α : Type} (key : String) (data : α) (env : StorageEnv α) : StorageEnv α :=
  if env.isBrowser then
    { env with store := fun k => if k = key then some (env.stringifyFn data) else env.store k }
  else env

/-- `loadData` from the storage helpers: outside a browser it returns null
(`none`); otherwise a missing entry returns null, and a present entry is
parsed with `JSON.parse`, a parse failure being caught and returning
null. -/
def loadData {α : Type} (key : String) (env : StorageEnv α) : Option α :=
  if env.isBrowser then
    match env.store key with
    | none => none
    | some s => env.parseFn s
  else none

/-! ## Lemmas about the merge sweep -/

/-- The sweep never returns an empty list, keeps the start of the current
slot, and only ever grows its stop. -/
theorem mergeInto_head : ∀ (l : List Slot) (cur : Slot), ∃ h t,
    mergeInto cur l = h :: t ∧ h.start = cur.start ∧ cur.stop ≤ h.stop
  | [], cur => ⟨cur, [], rfl, rfl, le_refl _⟩
  | b :: rest, cur => by
    by_cases hc : b.start ≤ cur.stop
    · obtain ⟨h, t, he, hs, hp⟩ := mergeInto_head rest ⟨cur.start, max cur.stop b.stop⟩
      exact ⟨h, t, by rw [mergeInto, if_pos hc]; exact he, hs,
        le_trans (le_max_left _ _) hp⟩
    · exact ⟨cur, mergeInto b rest, by rw [mergeInto, if_neg hc], rfl, le_refl _⟩

/-- On a start-sorted input the sweep produces strictly separated slots:
every adjacent output pair satisfies `a.stop < b.start`. -/
theorem mergeInto_chain : ∀ (l : List Slot) (cur : Slot),
    (∀ x ∈ l, startLE cur x) → List.Pairwise startLE l →
    List.Chain' (fun a b => a.stop < b.start) (mergeInto cur l)
  | [], cur, _, _ => by simp [mergeInto]
  | b :: rest, cur, hcur, hsort => by
    have hrest : List.Pairwise startLE rest := (List.pairwise_cons.mp hsort).2
    have hbrest : ∀ x ∈ rest, startLE b x := (List.pairwise_cons.mp hsort).1
    by_cases hc : b.start ≤ cur.stop
    · rw [mergeInto, if_pos hc]
      refine mergeInto_chain rest ⟨cur.start, max cur.stop b.stop⟩ ?_ hrest
      intro x hx
      exact hcur x (List.mem_cons_of_mem b hx)
    · rw [mergeInto, if_neg hc]
      obtain ⟨h, t, he, hs, _⟩ := mergeInto_head rest b
      rw [he]
      refine List.chain'_cons.mpr ⟨?_, ?_⟩
      · rw [hs]
        exact lt_of_not_le hc
      · rw [← he]
        exact mergeInto_chain rest b hbrest hrest

/-- The sweep preserves validity of slots (`start < stop`). -/
theorem mergeInto_valid : ∀ (l : List Slot) (cur : Slot),
    cur.start < cur.stop → (∀ x ∈ l, x.start < x.stop) →
    ∀ s ∈ mergeInto cur l, s.start < s.stop
  | [], cur, hcur, _, s, hs => by
    rw [mergeInto] at hs
    rcases List.mem_singleton.mp hs with rfl
    exact hcur
  | b :: rest, cur, hcur, hl, s, hs => by
    by_cases hc : b.start ≤ cur.stop
    · rw [mergeInto, if_pos hc] at hs
      refine mergeInto_valid rest ⟨cur.start, max cur.stop b.stop⟩ ?_ ?_ s hs
      · exact lt_of_lt_of_le hcur (le_max_left _ _)
      · intro x hx
        exact hl x (List.mem_cons_of_mem b hx)
    · rw [mergeInto, if_neg hc] at hs
      rcases List.mem_cons.mp hs with rfl | hs'
      · exact hcur
      · exact mergeInto_valid rest b (hl b (List.mem_cons_self b rest))
          (fun x hx => hl x (List.mem_cons_of_mem b hx)) s hs'

/-- The sweep is the identity on an already strictly separated list. -/
theorem mergeInto_fixed : ∀ (l : List Slot) (cur : Slot),
    List.Chain' (fun a b => a.stop < b.start) (cur :: l) →
    mergeInto cur l = cur :: l
  | [], cur, _ => rfl
  | b :: rest, cur, hch => by
    have h1 : cur.stop < b.start := (List.chain'_cons.mp hch).1
    have h2 := (List.chain'_cons.mp hch).2
    rw [mergeInto, if_neg (not_le.mpr h1), mergeInto_fixed rest b h2]

theorem mergeSweep_chain (l : List Slot) (hs : List.Pairwise startLE l) :
    List.Chain' (fun a b => a.stop < b.start) (mergeSweep l) := by
  cases l with
  | nil => simp [mergeSweep]
  | cons a rest =>
    exact mergeInto_chain rest a (List.pairwise_cons.mp hs).1 (List.pairwise_cons.mp hs).2

theorem mergeSweep_valid (l : List Slot) (hv : ∀ x ∈ l, x.start < x.stop) :
    ∀ s ∈ mergeSweep l, s.start < s.stop := by
  cases l with
  | nil =>
    intro s hs
    simp [mergeSweep] at hs
  | cons a rest =>
    exact mergeInto_valid rest a (hv a (List.mem_cons_self a rest))
      (fun x hx => hv x (List.mem_cons_of_mem a hx))

theorem mergeSweep_fixed (l : List Slot)
    (hch : List.Chain' (fun a b => a.stop < b.start) l) : mergeSweep l = l := by
  cases l with
  | nil => rfl
  | cons a rest => exact mergeInto_fixed rest a hch

/-- Strict separation of valid slots forces strictly increasing starts. -/
theorem chain_gap_pairwise_lt : ∀ (l : List Slot),
    (∀ s ∈ l, s.start < s.stop) →
    List.Chain' (fun a b => a.stop < b.start) l →
    List.Pairwise (fun a b : Slot => a.start < b.start) l
  | [], _, _ => List.Pairwise.nil
  | [a], _, _ => by simp
  | a :: b :: t, hv, hc => by
    have hab : a.stop < b.start := (List.chain'_cons.mp hc).1
    have ht := chain_gap_pairwise_lt (b :: t)
      (fun s hs => hv s (List.mem_cons_of_mem a hs)) (List.chain'_cons.mp hc).2
    refine List.pairwise_cons.mpr ⟨?_, ht⟩
    intro x hx
    have hab' : a.start < b.start := lt_trans (hv a (List.mem_cons_self _ _)) hab
    rcases List.mem_cons.mp hx with rfl | hx'
    · exact hab'
    · exact lt_trans hab' ((List.pairwise_cons.mp ht).1 x hx')

/-- Anatomy of a successful normalization: the output is the merged sort of
the timezone-converted slots, and every converted slot was valid. -/
theorem normalize_ok (sid : String) (tz : Int) (raw : List Slot)
    (sch : AvailabilitySchedule) (h : normalize sid tz raw = .ok sch) :
    sch = ⟨sid, 0, mergeSweep (List.insertionSort startLE
        (raw.map fun s => Slot.mk (s.start - tz) (s.stop - tz)))⟩ ∧
      ∀ s ∈ raw.map fun s => Slot.mk (s.start - tz) (s.stop - tz), s.start < s.stop := by
  simp only [normalize] at h
  split at h
  case isTrue hall =>
    refine ⟨?_, ?_⟩
    · cases h
      rfl
    · intro s hs
      simpa using List.all_eq_true.mp hall s hs
  case isFalse hall => cases h

/-- A successful normalization yields strictly separated, valid slots. -/
theorem normalize_ok_chain (sid : String) (tz : Int) (raw : List Slot)
    (sch : AvailabilitySchedule) (h : normalize sid tz raw = .ok sch) :
    List.Chain' (fun a b => a.stop < b.start) sch.slots ∧
      ∀ s ∈ sch.slots, s.start < s.stop := by
  obtain ⟨rfl, hv⟩ := normalize_ok sid tz raw sch h
  refine ⟨mergeSweep_chain _ (List.sorted_insertionSort startLE _), ?_⟩
  exact mergeSweep_valid _ fun x hx => hv x ((List.mem_insertionSort startLE).mp hx)

/-- Normalizing a list that already satisfies the output invariant (valid,
strictly separated slots) in UTC is a no-op. -/
theorem normalize_of_normalized (sid : String) (l : List Slot)
    (hv : ∀ s ∈ l, s.start < s.stop)
    (hch : List.Chain' (fun a b => a.stop < b.start) l) :
    normalize sid 0 l = .ok ⟨sid, 0, l⟩ := by
  have hmap : (l.map fun s => Slot.mk (s.start - 0) (s.stop - 0)) = l := by
    have he : ∀ s : Slot, Slot.mk (s.start - 0) (s.stop - 0) = s := fun s => by
      cases s
      simp
    simp [he]
  have hsorted : List.Sorted startLE l :=
    (chain_gap_pairwise_lt l hv hch).imp fun h => le_of_lt h
  simp only [normalize, hmap]
  rw [if_pos (List.all_eq_true.mpr fun s hs => decide_eq_true (hv s hs))]
  rw [hsorted.insertionSort_eq, mergeSweep_fixed l hch]

/-- C4: the Normalizer sorts the raw intervals by start and merges every
overlapping (`next.start ≤ current.stop`) or touching
(`next.start = current.stop`) pair into `{current.start, max of stops}`, so
every successful output is sorted strictly ascending by start with the
strict gap `slots[i].stop < slots[i+1].start` between every adjacent pair;
on the literal example [(9:00,10:00), (9:30,11:00)] (in minutes since
midnight, timezone UTC) it returns [(9:00,11:00)]. -/
theorem normalize_merges_and_separates :
    (∀ (sid : String) (tz : Int) (raw : List Slot) (sch : AvailabilitySchedule),
      normalize sid tz raw = .ok sch →
      List.Chain' (fun a b => a.stop < b.start) sch.slots ∧
        List.Pairwise (fun a b : Slot => a.start < b.start) sch.slots) ∧
    normalize "s" 0 [⟨540, 600⟩, ⟨570, 660⟩] = .ok ⟨"s", 0, [⟨540, 660⟩]⟩ := by
  constructor
  · intro sid tz raw sch h
    obtain ⟨hch, hv⟩ := normalize_ok_chain sid tz raw sch h
    exact ⟨hch, chain_gap_pairwise_lt _ hv hch⟩
  · rfl

/-- Witness for C4: the invariant instantiated on the literal example. -/
theorem normalize_merges_and_separates_witness :
    List.Chain' (fun a b => a.stop < b.start)
        (AvailabilitySchedule.mk "s" 0 [⟨540, 660⟩]).slots ∧
      List.Pairwise (fun a b : Slot => a.start < b.start)
        (AvailabilitySchedule.mk "s" 0 [⟨540, 660⟩]).slots :=
  normalize_merges_and_separates.1 "s" 0 [⟨540, 600⟩, ⟨570, 660⟩]
    ⟨"s", 0, [⟨540, 660⟩]⟩ (by rfl)

/-- C5: normalization is idempotent as a Kleisli composition — feeding the
schedule produced by a successful normalization (a UTC schedule) back into
the Normalizer reproduces it unchanged, and a failing input fails
identically, so `normalize (normalize x) = normalize x`. -/
theorem normalize_idempotent (sid : String) (tz : Int) (raw : List Slot) :
    (normalize sid tz raw).bind
        (fun sch => normalize sch.sourceId sch.tzOffset sch.slots) =
      normalize sid tz raw := by
  cases h : normalize sid tz raw with
  | error e => rfl
  | ok sch =>
    obtain ⟨hch, hv⟩ := normalize_ok_chain sid tz raw sch h
    obtain ⟨hsch, -⟩ := normalize_ok sid tz raw sch h
    subst hsch
    show normalize sid 0 _ = _
    exact normalize_of_normalized sid _ hv hch

/-! ## Lemmas about the Overlap Processor sweep -/

/-- `headsOf` signals exhaustion when some cursor list is empty. -/
theorem headsOf_eq_none_of_mem : ∀ (ls : List (List Slot)), [] ∈ ls → headsOf ls = none
  | [], h => absurd h (List.not_mem_nil _)
  | [] :: _, _ => rfl
  | (s :: t) :: rest, h => by
    rcases List.mem_cons.mp h with he | hmem
    · simp at he
    · rw [headsOf, headsOf_eq_none_of_mem rest hmem]
      rfl

/-- The sweep stops (with an empty result) as soon as a cursor is
exhausted. -/
theorem sweep_eq_nil_of_none (ls : List (List Slot)) (h : headsOf ls = none) :
    sweep ls = [] := by
  unfold sweep
  split
  · rfl
  · rfl
  · next p ps heq =>
    rw [h] at heq
    cases heq

/-- C6: for every non-empty schedule list containing some schedule with no
slots, `intersect` returns the empty slot sequence as an ordinary success
(no error), whatever the other schedules hold and whatever the optional
minimum duration is. -/
theorem intersect_empty_schedule_empty (schedules : List AvailabilitySchedule)
    (minDuration : Option Int) (hne : schedules ≠ [])
    (hemp : ∃ s ∈ schedules, s.slots = []) :
    intersect schedules minDuration = .ok [] := by
  cases schedules with
  | nil => exact absurd rfl hne
  | cons s0 rest =>
    have hnone : headsOf ((s0 :: rest).map fun s => s.slots) = none := by
      apply headsOf_eq_none_of_mem
      obtain ⟨s, hs, he⟩ := hemp
      exact List.mem_map.mpr ⟨s, hs, he⟩
    cases minDuration with
    | none => simp only [intersect, sweep_eq_nil_of_none _ hnone]
    | some d => simp only [intersect, sweep_eq_nil_of_none _ hnone, List.filter_nil]

/-- Witness for C6: a concrete two-schedule list whose first schedule is
empty intersects to the empty sequence. -/
theorem intersect_empty_schedule_empty_witness :
    intersect [⟨"a", 0, []⟩, ⟨"b", 0, [⟨0, 60⟩]⟩] none = .ok [] :=
  intersect_empty_schedule_empty _ none (by decide)
    ⟨⟨"a", 0, []⟩, List.mem_cons_self _ _, rfl⟩

/-! ## Lemmas about the Source Fetcher -/

/-- A cell whose index never completes keeps its initial contents. -/
theorem foldl_writeCell_not_mem (provider : String → ProviderResult)
    (links : List CalendarLink) : ∀ (order : List Nat)
    (init : Nat → Option FetchOutcome) (j : Nat), j ∉ order →
    order.foldl (writeCell provider links) init j = init j
  | [], _, _, _ => rfl
  | i :: order, init, j, h => by
    have hji : j ≠ i := fun he => h (he ▸ List.mem_cons_self i order)
    have hj : j ∉ order := fun hm => h (List.mem_cons_of_mem i hm)
    rw [List.foldl_cons, foldl_writeCell_not_mem provider links order _ j hj]
    unfold writeCell
    cases links[i]? with
    | none => rfl
    | some link => simp [hji]

/-- Once the task of an in-range index has completed, its cell holds the
outcome of its own link, whatever else completed before or after. -/
theorem foldl_writeCell_mem (provider : String → ProviderResult)
    (links : List CalendarLink) : ∀ (order : List Nat)
    (init : Nat → Option FetchOutcome) (j : Nat) (hlt : j < links.length),
    j ∈ order →
    order.foldl (writeCell provider links) init j = some (runTask provider links[j])
  | [], _, _, _, hmem => absurd hmem (List.not_mem_nil _)
  | i :: order, init, j, hlt, hmem => by
    by_cases hj : j ∈ order
    · exact foldl_writeCell_mem provider links order _ j hlt hj
    · have hji : j = i := by
        rcases List.mem_cons.mp hmem with h | h
        · exact h
        · exact absurd h hj
      subst hji
      rw [List.foldl_cons, foldl_writeCell_not_mem provider links order _ j hj]
      unfold writeCell
      rw [List.getElem?_eq_getElem hlt]
      simp

/-- Collecting over the index range a cell function that is everywhere the
image of the underlying list is just mapping over the list. -/
theorem range_filterMap_eq_map {α β : Type} : ∀ (l : List α) (g : Nat → Option β)
    (f : α → β), (∀ (i : Nat) (h : i < l.length), g i = some (f l[i])) →
    (List.range l.length).filterMap g = l.map f
  | [], _, _, _ => rfl
  | a :: t, g, f, hg => by
    rw [List.length_cons, List.range_succ_eq_map, List.map_cons,
      List.filterMap_cons_some (hg 0 (by simp)), List.filterMap_map]
    refine congrArg _ (range_filterMap_eq_map t (fun i => g (i + 1)) f ?_)
    intro i hi
    have := hg (i + 1) (by simpa using Nat.succ_lt_succ hi)
    simpa using this

/-- C7: for every link list and every completion order of the concurrent
per-source retrievals (modelled as a permutation of the task indices), the
outcome sequence returned by `fetch` equals the input links mapped through
the per-link task, so the outcome at position `i` corresponds to `links[i]`
independent of timing. -/
theorem fetch_mirrors_input_order (provider : String → ProviderResult)
    (links : List CalendarLink) (order : List Nat)
    (hperm : order.Perm (List.range links.length)) :
    fetch provider links order = links.map (runTask provider) := by
  unfold fetch runTasks
  apply range_filterMap_eq_map
  intro i hi
  exact foldl_writeCell_mem provider links order _ i hi
    (hperm.mem_iff.mpr (List.mem_range.mpr hi))

/-- Witness for C7: two links completing in reversed order still yield the
outcomes in input order. -/
theorem fetch_mirrors_input_order_witness :
    fetch (fun _ => .error .timeout) [⟨"a", "calendly", "u1"⟩, ⟨"b", "google", "u2"⟩]
        [1, 0] =
      List.map (runTask fun _ => .error .timeout)
        [⟨"a", "calendly", "u1"⟩, ⟨"b", "google", "u2"⟩] :=
  fetch_mirrors_input_order _ _ [1, 0] (by decide)

/-! ## Overlap Service and request validation -/

/-- C1: when fewer than 2 sources succeed, `computeOverlap` fails with
`InsufficientSourcesError` carrying the partial failure list, and that list
identifies every failed link; and in the implemented request path both
`FormSchema` (the wizard form) and `FindAvailabilitySchema` (the server
action) only validate requests with at least two calendar links. -/
theorem computeOverlap_insufficient_sources :
    (∀ (provider : String → ProviderResult) (links : List CalendarLink)
      (minDuration : Option Int) (order : List Nat),
      (successes (fetch provider links order)).length < 2 →
      computeOverlap provider links minDuration order =
          .error (.insufficientSources (failuresOf (fetch provider links order))) ∧
        ∀ f, FetchOutcome.failed f ∈ fetch provider links order →
          f ∈ failuresOf (fetch provider links order)) ∧
    (∀ (parseURL : String → Option ParsedURL) (data : FormData),
      formSchemaIssues parseURL data = [] → 2 ≤ data.links.length) ∧
    (∀ (isUrl : String → Bool) (req : FindRequest),
      findAvailabilityValidates isUrl req = true → 2 ≤ req.links.length) := by
  refine ⟨?_, ?_, ?_⟩
  · intro provider links minDuration order h
    constructor
    · simp only [computeOverlap]
      rw [if_pos h]
    · intro f hf
      exact List.mem_filterMap.mpr ⟨.failed f, hf, rfl⟩
  · intro parseURL data h
    by_contra hlt
    push_neg at hlt
    simp only [formSchemaIssues] at h
    rw [if_pos hlt] at h
    simp at h
  · intro isUrl req h
    simp only [findAvailabilityValidates, Bool.and_eq_true, decide_eq_true_eq] at h
    exact h.1.1

/-- Witness for C1: one timed-out link out of one gives zero successes, so
the request fails with the insufficient-sources error carrying the failure
list; and a two-link form passes the minimum-cardinality check. -/
theorem computeOverlap_insufficient_sources_witness :
    computeOverlap (fun _ => .error .timeout) [⟨"a", "calendly", "u1"⟩] none [0] =
        .error (.insufficientSources
          (failuresOf (fetch (fun _ => .error .timeout) [⟨"a", "calendly", "u1"⟩] [0]))) ∧
      2 ≤ (FormData.mk [⟨"u1"⟩, ⟨"u2"⟩] 30).links.length :=
  ⟨(computeOverlap_insufficient_sources.1 (fun _ => .error .timeout)
      [⟨"a", "calendly", "u1"⟩] none [0] (by decide)).1,
   computeOverlap_insufficient_sources.2.1 (fun _ => some ⟨"calendly.com"⟩)
      ⟨[⟨"u1"⟩, ⟨"u2"⟩], 30⟩ (by decide)⟩

/-- C2 counterexample: a request with two well-formed links but no
`duration` field fails `FindAvailabilitySchema` validation, refuting the
claim that a request omitting the minimum-duration field still passes the
implemented request validation. -/
theorem duration_omitted_fails_validation :
    findAvailabilityValidates (fun _ => true)
        ⟨[⟨"https://calendly.com/a"⟩, ⟨"https://calendly.com/b"⟩], none⟩ = false := rfl

/-- C2 amended: in the implemented request validation
(`FindAvailabilitySchema` in the server action) the duration field is
required rather than optional: every request omitting it fails validation,
while every request with at least two links passing the url check and a
positive integer duration validates. -/
theorem duration_required_positive :
    (∀ (isUrl : String → Bool) (req : FindRequest), req.duration = none →
      findAvailabilityValidates isUrl req = false) ∧
    (∀ (isUrl : String → Bool) (req : FindRequest) (d : Int),
      req.duration = some d → 0 < d → 2 ≤ req.links.length →
      req.links.all (fun l => isUrl l.value) = true →
      findAvailabilityValidates isUrl req = true) := by
  constructor
  · intro isUrl req h
    simp [findAvailabilityValidates, h]
  · intro isUrl req d hd hpos hlen hall
    simp [findAvailabilityValidates, hd, hpos, hlen, hall]

/-- Witness for the amended C2: omitting the duration fails, supplying a
positive one passes. -/
theorem duration_required_positive_witness :
    findAvailabilityValidates (fun _ => true) ⟨[⟨"a"⟩, ⟨"b"⟩], none⟩ = false ∧
      findAvailabilityValidates (fun _ => true) ⟨[⟨"a"⟩, ⟨"b"⟩], some 30⟩ = true :=
  ⟨duration_required_positive.1 (fun _ => true) ⟨[⟨"a"⟩, ⟨"b"⟩], none⟩ rfl,
   duration_required_positive.2 (fun _ => true) ⟨[⟨"a"⟩, ⟨"b"⟩], some 30⟩ 30 rfl
     (by decide) (by decide) (by decide)⟩

/-- C3: every branch of `getGoogleOauthToken` and of the `findAvailability`
server action — including the branches where an underlying Clerk call
throws, the user is unauthenticated, the token is missing or empty, or the
form data fails validation — returns an ordinary value that either succeeds
or carries an error message; totality of the model over all capability
outcomes expresses that no exception escapes either operation. -/
theorem no_failure_escapes :
    (∀ env : ClerkEnv, (getGoogleOauthToken env).success = true ∨
      ((getGoogleOauthToken env).success = false ∧
        ((getGoogleOauthToken env).error).isSome = true)) ∧
    (∀ (isUrl : String → Bool) (formData : FindRequest),
      (findAvailability isUrl formData).success = true ∨
      ((findAvailability isUrl formData).success = false ∧
        ((findAvailability isUrl formData).error).isSome = true)) := by
  constructor
  · intro env
    obtain ⟨a, c, t⟩ := env
    cases a with
    | thrown => exact Or.inr ⟨rfl, rfl⟩
    | value u =>
      cases u with
      | none => exact Or.inr ⟨rfl, rfl⟩
      | some uid =>
        cases c with
        | thrown => exact Or.inr ⟨rfl, rfl⟩
        | value cv =>
          cases t with
          | thrown => exact Or.inr ⟨rfl, rfl⟩
          | value data =>
            cases data with
            | nil => exact Or.inr ⟨rfl, rfl⟩
            | cons t0 rest =>
              cases t0 with
              | none => exact Or.inr ⟨rfl, rfl⟩
              | some s =>
                by_cases hs : s = ""
                · refine Or.inr ⟨?_, ?_⟩ <;> simp [getGoogleOauthToken, hs]
                · refine Or.inl ?_
                  simp [getGoogleOauthToken, hs]
  · intro isUrl formData
    by_cases h : findAvailabilityValidates isUrl formData
    · refine Or.inl ?_
      simp [findAvailability, h]
    · refine Or.inr ⟨?_, ?_⟩ <;> simp [findAvailability, h]

/-- C8: the duration dropdown offers the ten values 15 through 150 in steps
of 15 minutes, while `FormSchema` only accepts the five values
{30, 60, 90, 120, 150}; hence every offered value in {15, 45, 75, 105, 135}
makes validation of the submitted form data fail with the message
"Please select a valid duration.". -/
theorem durationOptions_vs_allowed :
    durationOptions.map (fun o => o.1) =
        [15, 30, 45, 60, 75, 90, 105, 120, 135, 150] ∧
      allowedDurations = [30, 60, 90, 120, 150] ∧
      ∀ d : Int, d ∈ ([15, 45, 75, 105, 135] : List Int) →
        d ∈ durationOptions.map (fun o => o.1) ∧
          ∀ (parseURL : String → Option ParsedURL) (data : FormData),
            data.duration = d →
            "Please select a valid duration." ∈ formSchemaIssues parseURL data := by
  refine ⟨rfl, rfl, ?_⟩
  intro d hd
  constructor
  · fin_cases hd <;> decide
  · intro parseURL data hdur
    simp [formSchemaIssues]
    refine Or.inr ?_
    rw [hdur]
    fin_cases hd <;> decide

/-- Witness for C8: duration 15 is offered by the dropdown yet fails
validation with the dedicated message. -/
theorem durationOptions_vs_allowed_witness :
    (15 : Int) ∈ durationOptions.map (fun o => o.1) ∧
      "Please select a valid duration." ∈
        formSchemaIssues (fun _ => none) ⟨[], 15⟩ :=
  ⟨(durationOptions_vs_allowed.2.2 15 (by decide)).1,
   (durationOptions_vs_allowed.2.2 15 (by decide)).2 (fun _ => none) ⟨[], 15⟩ rfl⟩

/-- C9: localStorage persistence round-trips: in a browser environment, for
every value whose JSON serialization parses back to itself, `loadData` after
`saveData` under the same key returns the value; outside a browser
environment `loadData` always returns null. -/
theorem storage_roundtrip :
    (∀ (α : Type) (env : StorageEnv α) (key : String) (v : α),
      env.isBrowser = true → env.parseFn (env.stringifyFn v) = some v →
      loadData key (saveData key v env) = some v) ∧
    (∀ (α : Type) (env : StorageEnv α) (key : String),
      env.isBrowser = false → loadData key env = none) := by
  constructor
  · intro α env key v hb hrt
    simp [loadData, saveData, hb, hrt]
  · intro α env key hb
    simp [loadData, hb]

/-- Witness for C9: a concrete round-trip in a browser environment, and a
concrete null result outside one. -/
theorem storage_roundtrip_witness :
    loadData "k" (saveData "k" (0 : Int)
        ⟨true, fun _ => none, fun _ => "v", fun _ => some 0⟩) = some 0 ∧
      loadData "k" (StorageEnv.mk (α := Int) false (fun _ => none)
        (fun _ => "v") (fun _ => some 0)) = none :=
  ⟨storage_roundtrip.1 Int ⟨true, fun _ => none, fun _ => "v", fun _ => some 0⟩
      "k" 0 rfl rfl,
   storage_roundtrip.2 Int _ "k" rfl⟩

/-- C10: `isValidCalendarUrl` is total and accepts exactly the strings the
URL parser resolves to a hostname that is literally calendly.com,
www.calendly.com or calendar.google.com; a string the parser rejects yields
`false` (the thrown TypeError is caught), and any other hostname — for
example a subdomain that merely contains calendly — is rejected. -/
theorem isValidCalendarUrl_spec :
    (∀ (parseURL : String → Option ParsedURL) (url : String),
      isValidCalendarUrl parseURL url = true ↔
        ∃ u, parseURL url = some u ∧ u.hostname ∈ validCalendarHosts) ∧
    (∀ (parseURL : String → Option ParsedURL) (url : String),
      parseURL url = none → isValidCalendarUrl parseURL url = false) ∧
    (∀ (parseURL : String → Option ParsedURL) (url : String) (u : ParsedURL),
      parseURL url = some u → u.hostname ∉ validCalendarHosts →
      isValidCalendarUrl parseURL url = false) := by
  refine ⟨?_, ?_, ?_⟩
  · intro parseURL url
    unfold isValidCalendarUrl
    cases h : parseURL url with
    | none => simp
    | some u => simp [List.elem_iff]
  · intro parseURL url h
    unfold isValidCalendarUrl
    rw [h]
  · intro parseURL url u h hn
    unfold isValidCalendarUrl
    rw [h]
    simpa [List.elem_iff] using hn

/-- Witness for C10: an unparsable string yields false, and a calendly
subdomain is rejected. -/
theorem isValidCalendarUrl_spec_witness :
    isValidCalendarUrl (fun _ => none) "not a url" = false ∧
      isValidCalendarUrl (fun _ => some ⟨"sub.calendly.com"⟩)
        "https://sub.calendly.com/x" = false :=
  ⟨isValidCalendarUrl_spec.2.1 (fun _ => none) "not a url" rfl,
   isValidCalendarUrl_spec.2.2 (fun _ => some ⟨"sub.calendly.com"⟩)
     "https://sub.calendly.com/x" ⟨"sub.calendly.com"⟩ rfl (by decide)⟩

end CalendlyCombine
